import Mathlib

/-
Formal model of the lobster message-relay core (TypeScript sources under
src/), shallowly embedded in Lean 4:

* src/kernel/queue-manager.ts : durable named FIFO queues with a
  three-partition item lifecycle (pending / processing / done);
* src/kernel/kernel.ts       : the dispatch kernel (admission control,
  incoming and outgoing dispatch loops, response construction);
* src/utils/rate-limiter.ts  : fixed-window per-key rate limiter;
* retry.ts (retryWithBackoff): bounded retry with exponential backoff;
* src/adapters/agents/opencode/session-manager.ts : durable
  channel-id -> session-id mapping with write-to-temp-then-rename saves.

Effectful TypeScript is modelled by explicit state passing: the file
system behind a QueueManager is a map from queue name to its three
partitions, `Date.now()` becomes an explicit time parameter, and
`Math.random()`-derived id suffixes become explicit suffix parameters.
JavaScript string comparison (used by `Array.prototype.sort` on file
names) is code-unit lexicographic order, embedded as `List.Lex` on the
character list of a `String`.
-/

namespace Lobster

/-! ## JavaScript string order

`Array.prototype.sort()` with no comparator sorts strings by UTF-16
code units.  All strings handled here are ASCII, so this is exactly
lexicographic order on the character lists. -/

/-- The strict order JavaScript's default sort uses on strings:
lexicographic comparison of the code-unit sequences. -/
def jsLT (a b : String) : Prop := List.Lex (· < ·) a.data b.data

instance (a b : String) : Decidable (jsLT a b) :=
  List.Lex.decidableRel (· < ·) a.data b.data

/-- Non-strict companion of `jsLT`. -/
def jsLE (a b : String) : Prop := jsLT a b ∨ a = b

instance (a b : String) : Decidable (jsLE a b) := by
  unfold jsLE; infer_instance

/-! ## Id generation (queue-manager.ts, line 44)

`const id = ${Date.now()}_${Math.random().toString(36).substr(2, 9)}`:
the decimal representation of the current epoch-millisecond count,
an underscore, then a random base-36 suffix.  The decimal printing and
the suffix are modelled explicitly; `Date.now()` and the random draw
become parameters. -/

/-- The ASCII digit character for a decimal digit. -/
def digitCh (d : Nat) : Char := Char.ofNat (48 + d)

/-- Decimal digits of `n`, most significant first (empty for `n = 0`),
computed with explicit fuel so the kernel can evaluate it on concrete
inputs; `decDigits_eq_digits_reverse` below identifies it with
`(Nat.digits 10 n).reverse`. -/
def decDigitsAux : Nat → Nat → List Nat
  | 0, _ => []
  | fuel + 1, n => if n = 0 then [] else decDigitsAux fuel (n / 10) ++ [n % 10]

/-- Decimal digits of `n`, most significant first (empty for `n = 0`). -/
def decDigits (n : Nat) : List Nat := decDigitsAux n n

/-- Decimal digit characters of `n`, most significant first
(empty for `n = 0`). -/
def decChars (n : Nat) : List Char := (decDigits n).map digitCh

/-- JavaScript's `String(n)` for a natural number in the safe integer
range: its decimal representation. -/
def decString (n : Nat) : String := if n = 0 then "0" else (decChars n).asString

/-- The queue item id generated at epoch-millisecond `t` with random
base-36 suffix `suffix`. -/
def genId (t : Nat) (suffix : String) : String := decString t ++ "_" ++ suffix

/-- The file name an item is stored under: its id plus ".json"
(queue-manager.ts, line 45). -/
def fileName (id : String) : String := id ++ ".json"

/-! ## QueueManager (src/kernel/queue-manager.ts)

A queue named `q` is three directories: `q` (pending), `q_processing`
and `q_done`.  Each directory holds at most one file per file name, so a
partition is a list of items with pairwise distinct file names; writing
or renaming onto an existing file name replaces the old file, which the
model reflects by filtering out any item with the same id first. -/

/-- One stored queue item (queue-manager.ts, lines 4-8). -/
structure QueuedItem (T : Type) where
  id : String
  data : T
  timestamp : Nat
deriving DecidableEq

/-- The three partitions (directories) backing one named queue. -/
structure QueueState (T : Type) where
  pending : List (QueuedItem T)
  processing : List (QueuedItem T)
  done : List (QueuedItem T)
deriving DecidableEq

/-- A queue whose three directories are empty (or do not exist yet:
`dequeue` treats a missing directory like an empty one). -/
def QueueState.empty (T : Type) : QueueState T :=
  { pending := [], processing := [], done := [] }

/-- The in-memory state of a `QueueManager` plus the file system under
its base path: the set of registered names, the directory contents per
queue name, and the tracked depth counter per queue name. -/
structure QueueManager (T : Type) where
  queues : List String
  store : String → QueueState T
  depth : String → Nat

/-- A fresh `QueueManager` over an empty base directory. -/
def QueueManager.init (T : Type) : QueueManager T :=
  { queues := [], store := fun _ => QueueState.empty T, depth := fun _ => 0 }

/-- Pointwise update of the directory contents of one queue. -/
def QueueManager.setStore (qm : QueueManager T) (name : String)
    (s : QueueState T) : QueueManager T :=
  { qm with store := fun n => if n = name then s else qm.store n }

/-- Pointwise update of the tracked depth of one queue. -/
def QueueManager.setDepth (qm : QueueManager T) (name : String)
    (d : Nat) : QueueManager T :=
  { qm with depth := fun n => if n = name then d else qm.depth n }

/-- Modelled from the spec: the number of item files in the pending
directory ("counting existing pending items (ignoring non-item files)").
In the model every entry of a partition is an item file, so this is the
length of the pending list. -/
def countPendingItems (s : QueueState T) : Nat := s.pending.length

/-- `registerQueue(name)` (queue-manager.ts, lines 21-35): a no-op if
`name` is already registered, otherwise creates the three directories
(`mkdir -p`: existing contents are untouched) and records the name.
The depth-counter establishment is modelled from the spec:
"establishes the in-memory depth counter for `name` by counting
existing pending items"; the counter itself does not appear in
src/kernel/queue-manager.ts (only its callers and tests survive there).
-/
def registerQueue (qm : QueueManager T) (name : String) : QueueManager T :=
  if name ∈ qm.queues then qm
  else
    { (qm.setDepth name (countPendingItems (qm.store name))) with
      queues := name :: qm.queues }

/-- Modelled from the spec: `depth(name)` "returns the tracked
pending-count".  The tests (kernel.test.ts) call it `getQueueDepth` and
expect 0 for a never-touched queue. -/
def getQueueDepth (qm : QueueManager T) (name : String) : Nat := qm.depth name

/-- Modelled from the spec: `refreshDepth(name)` "resynchronizes the
tracked count from actual storage". -/
def refreshQueueDepth (qm : QueueManager T) (name : String) : QueueManager T :=
  qm.setDepth name (countPendingItems (qm.store name))

/-- Writing a file into a directory: a file with the same name is
overwritten, otherwise the file is new. -/
def writeItem (dir : List (QueuedItem T)) (it : QueuedItem T) :
    List (QueuedItem T) :=
  (dir.filter (fun o => o.id ≠ it.id)) ++ [it]

/-- `enqueue(queueName, data)` (queue-manager.ts, lines 41-57):
registers the queue, generates the id from the current time `tId` and
the random suffix `suffix`, writes the item file (with a second
`Date.now()` reading `tItem` as its `timestamp` field) into the pending
directory, and returns the id.  The depth increment is modelled from
the spec: "increments the depth counter". -/
def enqueue (qm : QueueManager T) (queueName : String) (tId : Nat)
    (suffix : String) (tItem : Nat) (data : T) :
    String × QueueManager T :=
  let qm1 := registerQueue qm queueName
  let id := genId tId suffix
  let item : QueuedItem T := { id := id, data := data, timestamp := tItem }
  let qm2 := qm1.setStore queueName
    { qm1.store queueName with
      pending := writeItem (qm1.store queueName).pending item }
  (id, qm2.setDepth queueName (qm2.depth queueName + 1))

/-- The element of `dir` whose file name sorts first, i.e. the head of
`files.sort()` in queue-manager.ts lines 82-85 (file names within a
directory are pairwise distinct). -/
def pickMin (dir : List (QueuedItem T)) : Option (QueuedItem T) :=
  match dir with
  | [] => none
  | x :: xs =>
    some (xs.foldl
      (fun acc y => if jsLT (fileName y.id) (fileName acc.id) then y else acc)
      x)

/-- `dequeue(queueName)` (queue-manager.ts, lines 63-102): registers
the queue, lists the pending directory, returns `none` when no item
file is present, otherwise renames the lexicographically smallest file
into the processing directory, reads it back and returns it.  The I/O
failure path (lines 98-101) returns `none` with the store unchanged and
is environmental, so the model covers the successful path.  The depth
decrement is modelled from the spec: "decrements the depth counter". -/
def dequeue (qm : QueueManager T) (queueName : String) :
    Option (QueuedItem T) × QueueManager T :=
  let qm1 := registerQueue qm queueName
  match pickMin (qm1.store queueName).pending with
  | none => (none, qm1)
  | some item =>
    let s := qm1.store queueName
    let s2 : QueueState T :=
      { s with
        pending := s.pending.filter (fun o => o.id ≠ item.id)
        processing := writeItem s.processing item }
    let qm2 := qm1.setStore queueName s2
    (some item, qm2.setDepth queueName (qm2.depth queueName - 1))

/-- The `fs.rename` at queue-manager.ts line 119: succeeds exactly when
the source file exists in the processing directory, failing with an
error otherwise. -/
def renameProcessingToDone (s : QueueState T) (itemId : String) :
    Except Unit (QueueState T) :=
  match s.processing.find? (fun it => it.id = itemId) with
  | none => .error ()
  | some item =>
    .ok { s with
          processing := s.processing.filter (fun o => o.id ≠ itemId)
          done := writeItem s.done item }

/-- `complete(queueName, itemId)` (queue-manager.ts, lines 108-124):
moves the item file from processing to done; a failing rename (the file
is absent) is caught and only logged, so the call always returns
normally. -/
def complete (qm : QueueManager T) (queueName : String) (itemId : String) :
    QueueManager T :=
  match renameProcessingToDone (qm.store queueName) itemId with
  | .ok s2 => qm.setStore queueName s2
  | .error _ => qm

/-- The ids present in a partition. -/
def dirIds (dir : List (QueuedItem T)) : List String := dir.map (fun it => it.id)

/-- Well-formedness of one queue's partitions: ids are unique inside
each directory and no id is present in two directories at once (the
spec's "each item resides in exactly one partition"). -/
def PartitionsOk (s : QueueState T) : Prop :=
  (dirIds s.pending).Nodup ∧ (dirIds s.processing).Nodup ∧
    (dirIds s.done).Nodup ∧
    (∀ i ∈ dirIds s.pending, i ∉ dirIds s.processing) ∧
    (∀ i ∈ dirIds s.pending, i ∉ dirIds s.done) ∧
    (∀ i ∈ dirIds s.processing, i ∉ dirIds s.done)

instance (T : Type) (s : QueueState T) : Decidable (PartitionsOk s) := by
  unfold PartitionsOk; infer_instance

/-- One enqueue request: the two `Date.now()` readings and the random
suffix drawn during the call, plus the payload. -/
structure EnqueueReq (T : Type) where
  tId : Nat
  suffix : String
  tItem : Nat
  data : T

/-- The id an enqueue request produces. -/
def EnqueueReq.id (e : EnqueueReq T) : String := genId e.tId e.suffix

/-- The stored item an enqueue request produces. -/
def EnqueueReq.item (e : EnqueueReq T) : QueuedItem T :=
  { id := e.id, data := e.data, timestamp := e.tItem }

/-- Run a batch of enqueue calls against one queue. -/
def runEnqueues (qm : QueueManager T) (queueName : String) :
    List (EnqueueReq T) → QueueManager T
  | [] => qm
  | e :: es =>
    runEnqueues (enqueue qm queueName e.tId e.suffix e.tItem e.data).2
      queueName es

/-- Run `m` dequeue calls against one queue, dropping the returned
items. -/
def runDequeues (qm : QueueManager T) (queueName : String) :
    Nat → QueueManager T
  | 0 => qm
  | m + 1 => runDequeues (dequeue qm queueName).2 queueName m

/-- Run `n` dequeue calls against one queue and collect the items
returned (successive dequeues, as the incoming/outgoing loops do). -/
def drain (qm : QueueManager T) (queueName : String) :
    Nat → List (QueuedItem T)
  | 0 => []
  | n + 1 =>
    match dequeue qm queueName with
    | (none, _) => []
    | (some item, qm2) => item :: drain qm2 queueName n

/-! ## Kernel (src/kernel/kernel.ts)

The kernel owns one `QueueManager` holding the queues "incoming"
(MessagePacket items) and "outgoing" (ResponsePacket items).  Since the
two queue names are distinct and every queue operation touches a single
name, the state is modelled as one manager per queue, plus the
`activeProcessingJobs` set.  Collaborator behaviour is a parameter: an
agent maps a message to `Except` (a raised error or the reply text),
an output adapter maps a response to `Except` (a raised error or unit).
-/

/-- The unit of inbound work (src/interfaces/adapter.ts, lines 2-10).
`metadata` has the opaque type `μ`. -/
structure MessagePacket (μ : Type) where
  id : String
  source : String
  channelId : String
  userId : String
  payload : String
  timestamp : Nat
  metadata : Option μ
deriving DecidableEq

/-- The unit of outbound work (src/interfaces/adapter.ts, lines 12-14):
all MessagePacket fields plus the id of the message answered. -/
structure ResponsePacket (μ : Type) extends MessagePacket μ where
  originalMessageId : String
deriving DecidableEq

/-- The ResponsePacket built in the incoming loop (kernel.ts, lines
128-134): spread of the original message, with `id`, `payload`,
`originalMessageId` and `timestamp` overridden. -/
def buildResponse (msg : MessagePacket μ) (responseText : String)
    (now : Nat) : ResponsePacket μ :=
  { msg with
    id := msg.id ++ "_response"
    payload := responseText
    timestamp := now
    originalMessageId := msg.id }

/-- `handleIncomingMessage` (kernel.ts, lines 67-82) acting on the
"incoming" queue manager: drop the message while shutting down, drop it
when the tracked depth of "incoming" has reached `maxQueueDepth`,
otherwise enqueue it (the enqueue's time readings and random suffix are
the `tId`, `suffix`, `tItem` parameters). -/
def handleIncomingMessage (isShuttingDown : Bool) (maxQueueDepth : Nat)
    (qm : QueueManager (MessagePacket μ)) (msg : MessagePacket μ)
    (tId : Nat) (suffix : String) (tItem : Nat) :
    QueueManager (MessagePacket μ) :=
  if isShuttingDown then qm
  else if maxQueueDepth ≤ getQueueDepth qm "incoming" then qm
  else (enqueue qm "incoming" tId suffix tItem msg).2

/-- The kernel state the two dispatch loops touch: the "incoming" and
"outgoing" queues and the `activeProcessingJobs` id set. -/
structure KernelState (μ : Type) where
  incoming : QueueManager (MessagePacket μ)
  outgoing : QueueManager (ResponsePacket μ)
  active : List String

/-- What one loop iteration did, including whether an error escaped the
iteration uncaught (terminating the `processNext` chain). -/
structure StepReport (μ : Type) where
  state : KernelState μ
  raised : Option String

/-- One iteration of the incoming loop body (kernel.ts, lines 103-147):
dequeue from "incoming"; if an item is present, look up the agent; a
missing agent completes the item immediately; otherwise
`agent.process` runs inside try/catch/finally — on success the response
is enqueued onto "outgoing" and the item completed, on failure the item
is completed anyway, and in both cases the job id is removed from the
active set.  `respTime` is the `Date.now()` of the response packet and
`outReq` carries the outgoing enqueue's time/suffix readings. -/
def incomingStep (st : KernelState μ)
    (agents : String → Option (MessagePacket μ → Except String String))
    (agentName : String) (respTime : Nat)
    (outTId : Nat) (outSuffix : String) (outTItem : Nat) :
    StepReport μ :=
  match dequeue st.incoming "incoming" with
  | (none, qmIn) => { state := { st with incoming := qmIn }, raised := none }
  | (some queuedItem, qmIn) =>
    let msg := queuedItem.data
    match agents agentName with
    | none =>
      { state :=
          { st with incoming := complete qmIn "incoming" queuedItem.id }
        raised := none }
    | some process =>
      let stActive : KernelState μ :=
        { st with incoming := qmIn, active := st.active ++ [queuedItem.id] }
      match process msg with
      | .ok responseText =>
        let response := buildResponse msg responseText respTime
        let qmOut :=
          (enqueue st.outgoing "outgoing" outTId outSuffix outTItem
            response).2
        { state :=
            { stActive with
              incoming := complete stActive.incoming "incoming" queuedItem.id
              outgoing := qmOut
              active := stActive.active.filter (fun i => i ≠ queuedItem.id) }
          raised := none }
      | .error _ =>
        { state :=
            { stActive with
              incoming := complete stActive.incoming "incoming" queuedItem.id
              active := stActive.active.filter (fun i => i ≠ queuedItem.id) }
          raised := none }

/-- One iteration of the outgoing loop body (kernel.ts, lines 166-189):
dequeue from "outgoing"; add the job id to the active set; if an output
adapter matches `response.source`, await `send(response)` — there is no
try/catch here, so a raised send error escapes the iteration before
`complete` runs and before the id is removed from the active set;
otherwise (send succeeded, or no adapter found) the item is completed
and the id removed. -/
def outgoingStep (st : KernelState μ)
    (outputs : String → Option (ResponsePacket μ → Except String Unit)) :
    StepReport μ :=
  match dequeue st.outgoing "outgoing" with
  | (none, qmOut) => { state := { st with outgoing := qmOut }, raised := none }
  | (some queuedItem, qmOut) =>
    let response := queuedItem.data
    let stActive : KernelState μ :=
      { st with outgoing := qmOut, active := st.active ++ [queuedItem.id] }
    match outputs response.source with
    | some send =>
      match send response with
      | .ok _ =>
        { state :=
            { stActive with
              outgoing := complete stActive.outgoing "outgoing" queuedItem.id
              active := stActive.active.filter (fun i => i ≠ queuedItem.id) }
          raised := none }
      | .error e =>
        { state := stActive, raised := some e }
    | none =>
      { state :=
          { stActive with
            outgoing := complete stActive.outgoing "outgoing" queuedItem.id
            active := stActive.active.filter (fun i => i ≠ queuedItem.id) }
        raised := none }

/-! ## RateLimiter (src/utils/rate-limiter.ts)

A fixed-window counter per key.  `Date.now()` becomes the explicit
`now` parameter of `check` and `cleanup`; the entry map becomes a
function from keys to optional entries. -/

/-- `RateLimitEntry` (rate-limiter.ts, lines 1-4). -/
structure RateLimitEntry where
  count : Nat
  resetAt : Nat
deriving DecidableEq

/-- `RateLimitConfig` (rate-limiter.ts, lines 6-8). -/
structure RateLimitConfig where
  maxRequestsPerMinute : Nat
deriving DecidableEq

/-- The limiter's entry map. -/
abbrev RLState : Type := String → Option RateLimitEntry

/-- The empty entry map a fresh `RateLimiter` starts with. -/
def RLState.empty : RLState := fun _ => none

/-- Map update at one key. -/
def RLState.set (s : RLState) (key : String) (e : RateLimitEntry) : RLState :=
  fun k => if k = key then some e else s k

/-- Map removal at one key. -/
def RLState.del (s : RLState) (key : String) : RLState :=
  fun k => if k = key then none else s k

/-- `Math.ceil(ms / 1000)` for a natural number of milliseconds. -/
def ceilSeconds (ms : Nat) : Nat := (ms + 999) / 1000

/-- The value `check` returns: `{ allowed, retryAfter? }`. -/
structure CheckResult where
  allowed : Bool
  retryAfter : Option Nat
deriving DecidableEq

/-- `RateLimiter.check(identifier)` at time `now` (rate-limiter.ts,
lines 19-44): create a fresh entry (count 1, 60-second window) when the
key is unknown; reset the entry when its window has expired; deny with
the whole-second ceiling of the remaining window time when the count
has reached the per-window maximum; otherwise increment and allow. -/
def check (cfg : RateLimitConfig) (s : RLState) (now : Nat)
    (identifier : String) : CheckResult × RLState :=
  match s identifier with
  | none =>
    ({ allowed := true, retryAfter := none },
      s.set identifier { count := 1, resetAt := now + 60000 })
  | some entry =>
    if entry.resetAt ≤ now then
      ({ allowed := true, retryAfter := none },
        s.set identifier { count := 1, resetAt := now + 60000 })
    else if cfg.maxRequestsPerMinute ≤ entry.count then
      ({ allowed := false,
         retryAfter := some (ceilSeconds (entry.resetAt - now)) }, s)
    else
      ({ allowed := true, retryAfter := none },
        s.set identifier { entry with count := entry.count + 1 })

/-- `RateLimiter.cleanup()` at time `now` (rate-limiter.ts, lines
46-53): delete every entry whose window has expired. -/
def cleanup (s : RLState) (now : Nat) : RLState :=
  fun k =>
    match s k with
    | none => none
    | some entry => if entry.resetAt ≤ now then none else some entry

/-- Run a sequence of `check` calls for a single key at the given
times, collecting the results in order. -/
def runChecks (cfg : RateLimitConfig) (s : RLState) (identifier : String) :
    List Nat → List CheckResult × RLState
  | [] => ([], s)
  | t :: ts =>
    let r := check cfg s t identifier
    let rest := runChecks cfg r.2 identifier ts
    (r.1 :: rest.1, rest.2)

/-- Run a sequence of `check` calls for possibly different keys
(key, time), collecting the results in order. -/
def runKeyedChecks (cfg : RateLimitConfig) (s : RLState) :
    List (String × Nat) → List CheckResult × RLState
  | [] => ([], s)
  | kt :: kts =>
    let r := check cfg s kt.2 kt.1
    let rest := runKeyedChecks cfg r.2 kts
    (r.1 :: rest.1, rest.2)

/-- Entries indistinguishable by any `check` at a time `≥ t`: equal, or
one absent while the other's window already expired by `t` (an expired
entry and a missing one both take the fresh-window path). -/
def entryEquivAt (t : Nat) (e1 e2 : Option RateLimitEntry) : Prop :=
  e1 = e2 ∨
    (e1 = none ∧ ∃ en, e2 = some en ∧ en.resetAt ≤ t) ∨
    (e2 = none ∧ ∃ en, e1 = some en ∧ en.resetAt ≤ t)

/-- Pointwise lifting of `entryEquivAt` to entry maps. -/
def stateEquivAt (t : Nat) (s1 s2 : RLState) : Prop :=
  ∀ k, entryEquivAt t (s1 k) (s2 k)

/-! ## RetryExecutor (retry.ts, `retryWithBackoff`)

The fallible operation becomes a function from the (1-based) attempt
number to that attempt's outcome.  Delays are exact rationals: every
delay arithmetic the source performs (`delay * backoffMultiplier`,
`Math.min` with `maxDelayMs`) is exact on the IEEE doubles used for any
realistic policy, so `ℚ` is a faithful carrier. -/

/-- `RetryOptions` (retry.ts, lines 1-6). -/
structure RetryOptions where
  maxAttempts : Nat
  initialDelayMs : ℚ
  maxDelayMs : ℚ
  backoffMultiplier : ℚ
deriving DecidableEq

/-- The `RetryError` thrown after the final failed attempt (retry.ts,
lines 8-17): the last underlying error and the attempt count.
`lastError` is an `Option` because the source's `let lastError:
unknown` starts out `undefined` and the (unreachable-for-positive-
`maxAttempts`) fall-through throw at lines 56-60 can rethrow it. -/
structure RetryFailure (E : Type) where
  lastError : Option E
  attempts : Nat
deriving DecidableEq

/-- What one run of `retryWithBackoff` did: its outcome, how many times
the operation was invoked, and the waits performed between attempts in
order. -/
structure RetryTrace (E T : Type) where
  result : Except (RetryFailure E) T
  calls : Nat
  waits : List ℚ

/-- The `for` loop of retry.ts lines 31-54, from attempt number
`attempt` with current delay `delay`: invoke the operation; on success
return its value; on failure throw `RetryError` when this was the last
allowed attempt, otherwise wait `delay`, scale the delay by
`backoffMultiplier` capping at `maxDelayMs`, and continue.  The
fall-through throw at lines 56-60 is unreachable for `attempt ≤
maxAttempts` but modelled faithfully. -/
def retryGo (outcomes : Nat → Except E T) (opts : RetryOptions) :
    (attempt : Nat) → (delay : ℚ) → RetryTrace E T
  | attempt, delay =>
    if _h : opts.maxAttempts < attempt then
      { result := .error { lastError := none, attempts := opts.maxAttempts }
        calls := 0, waits := [] }
    else
      match outcomes attempt with
      | .ok v => { result := .ok v, calls := 1, waits := [] }
      | .error e =>
        if attempt = opts.maxAttempts then
          { result := .error { lastError := some e, attempts := attempt }
            calls := 1, waits := [] }
        else
          let next := retryGo outcomes opts (attempt + 1)
            (min (delay * opts.backoffMultiplier) opts.maxDelayMs)
          { result := next.result, calls := next.calls + 1
            waits := delay :: next.waits }
  termination_by attempt _ => opts.maxAttempts + 1 - attempt

/-- `retryWithBackoff(fn, options)` (retry.ts, lines 19-61): run the
loop from attempt 1 with the initial delay. -/
def retryWithBackoff (outcomes : Nat → Except E T) (opts : RetryOptions) :
    RetryTrace E T :=
  retryGo outcomes opts 1 opts.initialDelayMs

/-- The delay sequence the spec describes: the first wait is
`initialDelay`; each later wait is the previous wait times
`backoffMultiplier`, capped at `maxDelay`. -/
def specDelay (opts : RetryOptions) : Nat → ℚ
  | 0 => opts.initialDelayMs
  | n + 1 => min (specDelay opts n * opts.backoffMultiplier) opts.maxDelayMs

/-- The wait sequence of the retry loop as seen from an intermediate
state whose current delay is `d`: the `n`-th wait still to come. -/
def stepIter (opts : RetryOptions) (d : ℚ) : Nat → ℚ
  | 0 => d
  | n + 1 => stepIter opts (min (d * opts.backoffMultiplier) opts.maxDelayMs) n

/-! ## SessionManager (src/adapters/agents/opencode/session-manager.ts)

The in-memory `Map<string, string>` is its insertion-ordered entry
list, whose keys are pairwise distinct (a JS `Map` invariant).  A JSON
object literal is likewise an ordered list of string key/value pairs
with distinct keys; `JSON.parse(JSON.stringify(o))` is the identity on
such objects (string keys and string values survive a JSON round trip
exactly), so the file contents are modelled as the object itself. -/

/-- An insertion-ordered string-keyed collection of string values: the
shape shared by a JS `Map<string, string>` entry list and a JSON
object's property list. -/
abbrev SessionEntries : Type := List (String × String)

/-- Assigning `o[k] = v` on a JS object / `map.set(k, v)` on a JS Map:
an existing key keeps its position and gets the new value, a new key is
appended. -/
def objInsert (o : SessionEntries) (k v : String) : SessionEntries :=
  if o.any (fun p => p.1 = k) then
    o.map (fun p => if p.1 = k then (k, v) else p)
  else o ++ [(k, v)]

/-- `Object.fromEntries(entries)` and `new Map(entries)`: fold the
entry list with insert-or-overwrite semantics. -/
def fromEntries (l : List (String × String)) : SessionEntries :=
  l.foldl (fun o p => objInsert o p.1 p.2) []

/-- `Object.entries(o)` / iterating a Map: the entry list itself. -/
def objEntries (o : SessionEntries) : List (String × String) := o

/-- `map.get(k)`: the value at the first (only) entry with key `k`. -/
def entriesGet (o : SessionEntries) (k : String) : Option String :=
  (o.find? (fun p => p.1 = k)).map (fun p => p.2)

/-- The two files `save` touches under the base path: `sessions.json`
and `sessions.json.tmp` (session-manager.ts, lines 13-15).  `none`
means the file does not exist. -/
structure SessionFiles where
  mainFile : Option SessionEntries
  tmpFile : Option SessionEntries

/-- `SessionManager.save()` (session-manager.ts, lines 37-57) on the
successful path: serialize `Object.fromEntries(this.sessions)`, write
it to the temporary file, then atomically rename the temporary file
over `sessions.json`. -/
def saveSessions (sessions : SessionEntries) (_fs : SessionFiles) :
    SessionFiles :=
  let data := fromEntries (objEntries sessions)
  { mainFile := some data, tmpFile := none }

/-- `SessionManager.load()` (session-manager.ts, lines 18-35) on a
fresh instance: read and parse `sessions.json` into
`new Map(Object.entries(data))`; a missing (or unreadable) file yields
the empty map. -/
def loadSessions (fs : SessionFiles) : SessionEntries :=
  match fs.mainFile with
  | some data => fromEntries (objEntries data)
  | none => []

/-- `getSessionId(channelId)` (session-manager.ts, lines 59-61). -/
def getSessionId (sessions : SessionEntries) (channelId : String) :
    Option String :=
  entriesGet sessions channelId

/-! ## Concrete instances

Closed inputs used by witnesses and counterexamples below. -/

/-- A concrete inbound message. -/
def msgW : MessagePacket Unit :=
  { id := "m1", source := "discord", channelId := "c1", userId := "u1"
    payload := "hello", timestamp := 1700000000000, metadata := none }

/-- A concrete session map with two channels. -/
def sessW : SessionEntries := [("c1", "s1"), ("c2", "s2")]

/-- A concrete initial pair of session files (first run: neither file
exists). -/
def filesW : SessionFiles := { mainFile := none, tmpFile := none }

/-- A queue manager holding one item (id "1_a") in the processing
partition of queue "q": the state after one enqueue and one dequeue. -/
def qmW : QueueManager Nat :=
  (dequeue (enqueue (QueueManager.init Nat) "q" 1 "a" 2 7).2 "q").2

/-- Two enqueue requests whose epoch-millisecond times straddle the
decimal-length boundary 10^12 and differ by 1 ms (so they are not a
same-millisecond tie). -/
def esBoundary : List (EnqueueReq Nat) :=
  [{ tId := 999999999999, suffix := "aaaaaaaaa", tItem := 0, data := 1 },
   { tId := 1000000000000, suffix := "bbbbbbbbb", tItem := 0, data := 2 }]

/-- The queue manager after enqueueing `esBoundary` onto "incoming". -/
def qmBoundary : QueueManager Nat :=
  runEnqueues (QueueManager.init Nat) "incoming" esBoundary

/-- Three enqueue requests with increasing 13-digit timestamps. -/
def esW : List (EnqueueReq Nat) :=
  [{ tId := 1700000000000, suffix := "aaaaaaaaa", tItem := 1700000000000
     data := 10 },
   { tId := 1700000000001, suffix := "zzzzzzzzz", tItem := 1700000000001
     data := 20 },
   { tId := 1700000000002, suffix := "mmmmmmmmm", tItem := 1700000000002
     data := 30 }]

/-- A concrete outbound response addressed to the "discord" output
adapter. -/
def respW : ResponsePacket Unit :=
  { id := "m1_response", source := "discord", channelId := "c1"
    userId := "u1", payload := "reply", timestamp := 2, metadata := none
    originalMessageId := "m1" }

/-- A kernel state whose "outgoing" queue holds `respW` and nothing
else. -/
def stOutW : KernelState Unit :=
  { incoming := QueueManager.init _
    outgoing := (enqueue (QueueManager.init _) "outgoing" 1 "r" 1 respW).2
    active := [] }

/-- An output-adapter registry whose "discord" adapter's `send`
always raises. -/
def outputsBoom : String → Option (ResponsePacket Unit → Except String Unit) :=
  fun s => if s = "discord" then some (fun _ => .error "boom") else none

/-- A kernel state whose "incoming" queue holds `msgW` and nothing
else. -/
def stInW : KernelState Unit :=
  { incoming := (enqueue (QueueManager.init _) "incoming" 1 "m" 1 msgW).2
    outgoing := QueueManager.init _
    active := [] }

/-- An agent registry whose only agent's `process` always raises. -/
def agentsBoom : String → Option (MessagePacket Unit → Except String String) :=
  fun _ => some (fun _ => .error "agent down")

/-- A rate-limiter entry map holding one expired entry for key "k"
(window ended at time 100) and one live entry for key "l". -/
def rlW : RLState :=
  fun k =>
    if k = "k" then some { count := 3, resetAt := 100 }
    else if k = "l" then some { count := 1, resetAt := 999999 }
    else none

/-- A concrete retry-outcome sequence: the first attempt fails, every
later attempt succeeds with 42. -/
def outcomesW : Nat → Except String Nat :=
  fun attempt => if attempt = 1 then .error "transient" else .ok 42

/-- The default retry policy of retry.ts lines 21-26. -/
def optsW : RetryOptions :=
  { maxAttempts := 3, initialDelayMs := 1000, maxDelayMs := 30000
    backoffMultiplier := 2 }

/-! # Theorems -/

/-- C9: the ResponsePacket built for a successfully processed message
keeps the original `source`, `channelId`, `userId` and `metadata`
unchanged, sets `originalMessageId` to the original id, sets its own
`id` to the original id with "_response" appended, and replaces only
the `payload` (with the agent's reply text) and the `timestamp`. -/
theorem C9_response_packet_frame (μ : Type) (msg : MessagePacket μ)
    (responseText : String) (now : Nat) :
    (buildResponse msg responseText now).source = msg.source ∧
    (buildResponse msg responseText now).channelId = msg.channelId ∧
    (buildResponse msg responseText now).userId = msg.userId ∧
    (buildResponse msg responseText now).metadata = msg.metadata ∧
    (buildResponse msg responseText now).originalMessageId = msg.id ∧
    (buildResponse msg responseText now).id = msg.id ++ "_response" ∧
    (buildResponse msg responseText now).payload = responseText ∧
    (buildResponse msg responseText now).timestamp = now :=
  ⟨rfl, rfl, rfl, rfl, rfl, rfl, rfl, rfl⟩

/-- C4: `handleIncomingMessage` silently drops the message (the state
is returned unchanged, nothing is enqueued, nothing raised) while the
kernel is shutting down, and likewise when the tracked depth of queue
"incoming" is at or above the configured maximum; otherwise it
enqueues the message onto "incoming" (in particular the stored item
carrying the message is then present in the pending partition). -/
theorem C4_admission_control (μ : Type) (sd : Bool) (maxDepth : Nat)
    (qm : QueueManager (MessagePacket μ)) (msg : MessagePacket μ)
    (tId : Nat) (suffix : String) (tItem : Nat) :
    (sd = true →
      handleIncomingMessage sd maxDepth qm msg tId suffix tItem = qm) ∧
    (maxDepth ≤ getQueueDepth qm "incoming" →
      handleIncomingMessage sd maxDepth qm msg tId suffix tItem = qm) ∧
    (sd = false → getQueueDepth qm "incoming" < maxDepth →
      handleIncomingMessage sd maxDepth qm msg tId suffix tItem =
        (enqueue qm "incoming" tId suffix tItem msg).2 ∧
      ({ id := genId tId suffix, data := msg, timestamp := tItem } :
            QueuedItem (MessagePacket μ)) ∈
        ((handleIncomingMessage sd maxDepth qm msg tId suffix
            tItem).store "incoming").pending) := by
  refine ⟨fun h => by simp [handleIncomingMessage, h], fun h => ?_, ?_⟩
  · cases sd with
    | true => simp [handleIncomingMessage]
    | false => simp [handleIncomingMessage, h]
  · intro hsd hlt
    have hcond : ¬ maxDepth ≤ getQueueDepth qm "incoming" :=
      Nat.not_le.mpr hlt
    constructor
    · simp [handleIncomingMessage, hsd, hcond]
    · simp [handleIncomingMessage, hsd, hcond, enqueue, writeItem,
        QueueManager.setStore, QueueManager.setDepth]

/-- Witness for C4 at concrete inputs: a message is dropped while
shutting down and enqueued when running below the depth limit. -/
theorem C4_admission_control_witness :
    handleIncomingMessage true 50 (QueueManager.init (MessagePacket Unit))
        msgW 1 "a" 1 = QueueManager.init (MessagePacket Unit) ∧
    handleIncomingMessage false 50 (QueueManager.init (MessagePacket Unit))
        msgW 1 "a" 1 =
      (enqueue (QueueManager.init (MessagePacket Unit)) "incoming" 1 "a" 1
        msgW).2 :=
  ⟨(C4_admission_control Unit true 50 (QueueManager.init _) msgW 1 "a" 1).1
      rfl,
   ((C4_admission_control Unit false 50 (QueueManager.init _) msgW 1 "a"
      1).2.2 rfl (by decide)).1⟩

/-- Inserting a key absent from an entry list appends it. -/
theorem objInsert_of_fresh (o : SessionEntries) (k v : String)
    (h : ∀ p ∈ o, p.1 ≠ k) : objInsert o k v = o ++ [(k, v)] := by
  unfold objInsert
  rw [if_neg]
  simp only [List.any_eq_true, decide_eq_true_eq, not_exists, not_and]
  exact fun p hp => h p hp

/-- Folding insert-or-overwrite over fresh, pairwise-distinct keys
appends them all. -/
theorem fromEntries_go (l : List (String × String)) :
    ∀ o : SessionEntries, (o.map Prod.fst ++ l.map Prod.fst).Nodup →
      l.foldl (fun o p => objInsert o p.1 p.2) o = o ++ l := by
  induction l with
  | nil => intro o _; simp
  | cons p l ih =>
    intro o h
    have hfresh : ∀ q ∈ o, q.1 ≠ p.1 := by
      intro q hq heq
      have hdisj := (List.nodup_append.mp h).2.2
      exact hdisj (List.mem_map_of_mem Prod.fst hq)
        (by rw [List.map_cons]; exact heq ▸ List.mem_cons_self _ _)
    have hstep : objInsert o p.1 p.2 = o ++ [p] := objInsert_of_fresh o p.1 p.2 hfresh
    simp only [List.foldl_cons, hstep]
    rw [ih (o ++ [p]) (by simpa using h)]
    simp

/-- `Object.fromEntries` (and `new Map(·)`) is the identity on an
entry list with pairwise-distinct keys. -/
theorem fromEntries_of_nodup (l : List (String × String))
    (h : (l.map Prod.fst).Nodup) : fromEntries l = l := by
  unfold fromEntries
  simpa using fromEntries_go l [] (by simpa using h)

/-- C6: saving a session mapping and loading it on a fresh instance
backed by the same path reproduces exactly the same mapping — the
loaded entry list equals the saved one, every `get(channelId)` agrees
with the original, and no temporary-file artifact remains.  The
hypothesis is the JS `Map` invariant: keys are pairwise distinct. -/
theorem C6_session_save_load_roundtrip (sessions : SessionEntries)
    (fs : SessionFiles) (h : (sessions.map Prod.fst).Nodup) :
    loadSessions (saveSessions sessions fs) = sessions ∧
    (∀ c, getSessionId (loadSessions (saveSessions sessions fs)) c =
      getSessionId sessions c) ∧
    (saveSessions sessions fs).tmpFile = none := by
  have hload : loadSessions (saveSessions sessions fs) = sessions := by
    simp [loadSessions, saveSessions, objEntries, fromEntries_of_nodup _ h]
  exact ⟨hload, fun c => by rw [hload], rfl⟩

/-- Witness for C6 at a concrete two-channel mapping. -/
theorem C6_session_save_load_roundtrip_witness :
    loadSessions (saveSessions sessW filesW) = sessW ∧
    getSessionId (loadSessions (saveSessions sessW filesW)) "c2" =
      getSessionId sessW "c2" :=
  ⟨(C6_session_save_load_roundtrip sessW filesW (by decide)).1,
   (C6_session_save_load_roundtrip sessW filesW (by decide)).2.1 "c2"⟩

/-- After filtering out every item whose id is `i`, no item with id `i`
can be found. -/
theorem find?_filter_id_ne (T : Type) (l : List (QueuedItem T)) (i : String) :
    (l.filter (fun o => o.id ≠ i)).find? (fun it => it.id = i) = none := by
  rw [List.find?_eq_none]
  intro x hx
  have hne := (List.mem_filter.mp hx).2
  simp only [decide_eq_true_eq] at hne ⊢
  simpa using hne

/-- Moving a present item from processing to done keeps the three
partitions well formed. -/
theorem PartitionsOk_after_move (T : Type) (s : QueueState T)
    (item : QueuedItem T) (hmem : item ∈ s.processing)
    (hok : PartitionsOk s) :
    PartitionsOk
      { s with
        processing := s.processing.filter (fun o => o.id ≠ item.id)
        done := writeItem s.done item } := by
  obtain ⟨h1, h2, h3, h4, h5, h6⟩ := hok
  have hproc_sub :
      dirIds (s.processing.filter (fun o => o.id ≠ item.id)) |>.Sublist
        (dirIds s.processing) :=
    List.Sublist.map _ (List.filter_sublist _)
  have hdone_sub :
      dirIds (s.done.filter (fun o => o.id ≠ item.id)) |>.Sublist
        (dirIds s.done) :=
    List.Sublist.map _ (List.filter_sublist _)
  have hmem_proc_filter :
      ∀ i ∈ dirIds (s.processing.filter (fun o => o.id ≠ item.id)),
        i ∈ dirIds s.processing ∧ i ≠ item.id := by
    intro i hi
    simp only [dirIds, List.mem_map, List.mem_filter,
      decide_eq_true_eq] at hi
    obtain ⟨x, ⟨hxmem, hxne⟩, hxi⟩ := hi
    exact ⟨by simp only [dirIds, List.mem_map]; exact ⟨x, hxmem, hxi⟩,
      hxi ▸ hxne⟩
  have hmem_done_filter :
      ∀ i ∈ dirIds (s.done.filter (fun o => o.id ≠ item.id)),
        i ∈ dirIds s.done ∧ i ≠ item.id := by
    intro i hi
    simp only [dirIds, List.mem_map, List.mem_filter,
      decide_eq_true_eq] at hi
    obtain ⟨x, ⟨hxmem, hxne⟩, hxi⟩ := hi
    exact ⟨by simp only [dirIds, List.mem_map]; exact ⟨x, hxmem, hxi⟩,
      hxi ▸ hxne⟩
  have hitem_id : item.id ∈ dirIds s.processing := by
    simp only [dirIds, List.mem_map]; exact ⟨item, hmem, rfl⟩
  have hdone_ids : dirIds (writeItem s.done item) =
      dirIds (s.done.filter (fun o => o.id ≠ item.id)) ++ [item.id] := by
    simp [dirIds, writeItem]
  refine ⟨h1, hproc_sub.nodup h2, ?_, ?_, ?_, ?_⟩
  · rw [hdone_ids, List.nodup_append]
    refine ⟨hdone_sub.nodup h3, List.nodup_singleton _, ?_⟩
    intro i hi hisingle
    have heq := List.mem_singleton.mp hisingle
    subst heq
    exact (hmem_done_filter _ hi).2 rfl
  · intro i hip hipr
    exact h4 i hip ((hmem_proc_filter i hipr).1)
  · intro i hip hid
    rw [hdone_ids, List.mem_append] at hid
    rcases hid with hid | hid
    · exact h5 i hip (hmem_done_filter i hid).1
    · have heq := List.mem_singleton.mp hid
      subst heq
      exact h4 _ hip hitem_id
  · intro i hipr hid
    obtain ⟨hiold, hine⟩ := hmem_proc_filter i hipr
    rw [hdone_ids, List.mem_append] at hid
    rcases hid with hid | hid
    · exact h6 i hiold (hmem_done_filter i hid).1
    · exact hine (List.mem_singleton.mp hid)

/-- C5: `complete(name, id)` is idempotent and safe: completing the
same id twice equals completing it once; an id absent from the
processing partition (already completed, never dequeued, or never
existed) makes the call a caught-error no-op; a well-formed queue stays
well formed; and no other queue's partitions are touched.  Totality of
`complete` itself models "never raises": the failing rename is caught
inside it. -/
theorem C5_complete_idempotent_safe (T : Type) (qm : QueueManager T)
    (name itemId : String) :
    complete (complete qm name itemId) name itemId =
      complete qm name itemId ∧
    ((∀ it ∈ (qm.store name).processing, it.id ≠ itemId) →
      complete qm name itemId = qm) ∧
    (PartitionsOk (qm.store name) →
      PartitionsOk ((complete qm name itemId).store name)) ∧
    (∀ other, other ≠ name →
      (complete qm name itemId).store other = qm.store other) := by
  cases hfind : (qm.store name).processing.find? (fun it => it.id = itemId)
  case none =>
    have hc : complete qm name itemId = qm := by
      simp [complete, renameProcessingToDone, hfind]
    exact ⟨by rw [hc, hc], fun _ => hc, fun h => by rw [hc]; exact h,
      fun o _ => by rw [hc]⟩
  case some item =>
    have hid : item.id = itemId := by
      have := List.find?_some hfind
      simpa using this
    subst hid
    have hmem : item ∈ (qm.store name).processing :=
      List.mem_of_find?_eq_some hfind
    have hc : complete qm name item.id = qm.setStore name
        { qm.store name with
          processing :=
            (qm.store name).processing.filter (fun o => o.id ≠ item.id)
          done := writeItem (qm.store name).done item } := by
      simp [complete, renameProcessingToDone, hfind]
    refine ⟨?_, ?_, ?_, ?_⟩
    · rw [hc]
      have hstore :
          ((qm.setStore name
            { qm.store name with
              processing :=
                (qm.store name).processing.filter (fun o => o.id ≠ item.id)
              done := writeItem (qm.store name).done item }).store name) =
          { qm.store name with
            processing :=
              (qm.store name).processing.filter (fun o => o.id ≠ item.id)
            done := writeItem (qm.store name).done item } := by
        simp [QueueManager.setStore]
      unfold complete
      rw [hstore]
      unfold renameProcessingToDone
      rw [find?_filter_id_ne]
    · intro habsent
      exact absurd rfl (habsent item hmem)
    · intro hok
      rw [hc]
      simp only [QueueManager.setStore, if_pos rfl]
      exact PartitionsOk_after_move T (qm.store name) item hmem hok
    · intro other hother
      rw [hc]
      simp [QueueManager.setStore, hother]

/-- Witness for C5: on a concrete manager with item "1_a" in
processing on queue "q", completing twice equals completing once, an
absent id is a no-op, and the partitions stay well formed. -/
theorem C5_complete_idempotent_safe_witness :
    complete (complete qmW "q" "1_a") "q" "1_a" = complete qmW "q" "1_a" ∧
    complete qmW "q" "zzz" = qmW ∧
    PartitionsOk ((complete qmW "q" "1_a").store "q") :=
  ⟨(C5_complete_idempotent_safe Nat qmW "q" "1_a").1,
   (C5_complete_idempotent_safe Nat qmW "q" "zzz").2.1 (by decide),
   (C5_complete_idempotent_safe Nat qmW "q" "1_a").2.2.1 (by decide)⟩

/-- Tail-recursion form of `stepIter`. -/
theorem stepIter_succ (opts : RetryOptions) :
    ∀ (n : Nat) (d : ℚ), stepIter opts d (n + 1) =
      min (stepIter opts d n * opts.backoffMultiplier) opts.maxDelayMs := by
  intro n
  induction n with
  | zero => intro d; rfl
  | succ n ih =>
    intro d
    show stepIter opts (min (d * opts.backoffMultiplier) opts.maxDelayMs)
        (n + 1) = _
    rw [ih]
    rfl

/-- The spec's delay sequence is the loop's wait sequence started from
the initial delay. -/
theorem specDelay_eq_stepIter (opts : RetryOptions) (n : Nat) :
    specDelay opts n = stepIter opts opts.initialDelayMs n := by
  induction n with
  | zero => rfl
  | succ n ih => rw [specDelay, ih, stepIter_succ]

/-- Unrolling the retry loop from attempt `a` with current delay `d`:
`k` failures followed by one success return the success value after
exactly `k + 1` invocations, having waited the delay sequence from
`d`. -/
theorem retryGo_ok (E T : Type) (outcomes : Nat → Except E T)
    (opts : RetryOptions) (v : T) :
    ∀ (k a : Nat) (d : ℚ), 1 ≤ a → a + k ≤ opts.maxAttempts →
      (∀ i < k, ∃ e, outcomes (a + i) = Except.error e) →
      outcomes (a + k) = Except.ok v →
      retryGo outcomes opts a d =
        { result := .ok v, calls := k + 1
          waits := (List.range k).map (stepIter opts d) } := by
  intro k
  induction k with
  | zero =>
    intro a d _ha hle _hfail hok
    rw [Nat.add_zero] at hok
    rw [retryGo.eq_def]
    dsimp only
    rw [dif_neg (by omega)]
    rw [hok]
    simp
  | succ k ih =>
    intro a d ha hle hfail hok
    obtain ⟨e, he⟩ := hfail 0 (Nat.succ_pos k)
    rw [Nat.add_zero] at he
    rw [retryGo.eq_def]
    dsimp only
    rw [dif_neg (by omega)]
    rw [he]
    dsimp only
    rw [if_neg (show ¬ a = opts.maxAttempts by omega)]
    have hrec := ih (a + 1) (min (d * opts.backoffMultiplier) opts.maxDelayMs)
      (by omega) (by omega)
      (fun i hi => by
        obtain ⟨e2, he2⟩ := hfail (i + 1) (Nat.succ_lt_succ hi)
        exact ⟨e2, by rw [show a + 1 + i = a + (i + 1) from by omega]; exact he2⟩)
      (by rw [show a + 1 + k = a + (k + 1) from by omega]; exact hok)
    rw [hrec]
    have hwaits : d :: (List.range k).map
        (stepIter opts (min (d * opts.backoffMultiplier) opts.maxDelayMs)) =
        (List.range (k + 1)).map (stepIter opts d) := by
      rw [List.range_succ_eq_map, List.map_cons, List.map_map]
      rfl
    rw [← hwaits]

/-- C7: an operation failing `k < maxAttempts` times and then
succeeding makes `retryWithBackoff` return the success value, invoke
the operation exactly `k + 1` times, and wait, between consecutive
attempts, `initialDelay`, then after each further failure the previous
delay times `backoffMultiplier` capped at `maxDelay`. -/
theorem C7_retry_success_calls_and_delays (E T : Type)
    (outcomes : Nat → Except E T) (opts : RetryOptions) (k : Nat) (v : T)
    (hk : k < opts.maxAttempts)
    (hfail : ∀ i < k, ∃ e, outcomes (1 + i) = Except.error e)
    (hok : outcomes (1 + k) = Except.ok v) :
    retryWithBackoff outcomes opts =
      { result := .ok v, calls := k + 1
        waits := (List.range k).map (specDelay opts) } := by
  unfold retryWithBackoff
  rw [retryGo_ok E T outcomes opts v k 1 opts.initialDelayMs le_rfl
    (by omega) hfail hok]
  have hfun : stepIter opts opts.initialDelayMs = specDelay opts :=
    funext fun n => (specDelay_eq_stepIter opts n).symm
  rw [hfun]

/-- Witness for C7 with the default policy: one failure then success
yields the value 42, two invocations and a single 1000 ms wait. -/
theorem C7_retry_success_calls_and_delays_witness :
    retryWithBackoff outcomesW optsW =
      { result := .ok 42, calls := 2, waits := [(1000 : ℚ)] } := by
  have h := C7_retry_success_calls_and_delays String Nat outcomesW optsW 1 42
    (by norm_num [optsW])
    (fun i hi => ⟨"transient", by
      have h0 : i = 0 := by omega
      subst h0
      rfl⟩)
    rfl
  rw [h]
  rfl

/-- Running `check` repeatedly for one key from an entry with count `c`
inside a live window: checks are allowed until the count saturates at
the per-window maximum, and denied with the remaining-window ceiling
afterwards. -/
theorem runChecks_saturating (cfg : RateLimitConfig) (identifier : String)
    (R : Nat) :
    ∀ (us : List Nat) (s : RLState) (c : Nat), 1 ≤ c →
      c ≤ cfg.maxRequestsPerMinute →
      s identifier = some { count := c, resetAt := R } →
      (∀ u ∈ us, u < R) →
      (runChecks cfg s identifier us).1 =
        List.replicate (min us.length (cfg.maxRequestsPerMinute - c))
          { allowed := true, retryAfter := none } ++
        (us.drop (cfg.maxRequestsPerMinute - c)).map
          (fun u => { allowed := false
                      retryAfter := some (ceilSeconds (R - u)) }) := by
  intro us
  induction us with
  | nil => intro s c _ _ _ _; simp [runChecks]
  | cons u us ih =>
    intro s c hc1 hcm hs hus
    have hultR : ¬ R ≤ u := Nat.not_le.mpr (hus u (List.mem_cons_self u us))
    by_cases hsat : cfg.maxRequestsPerMinute ≤ c
    · have hceq : c = cfg.maxRequestsPerMinute := Nat.le_antisymm hcm hsat
      have hzero : cfg.maxRequestsPerMinute - c = 0 := by omega
      simp only [runChecks, check, hs, if_neg hultR, if_pos hsat]
      rw [ih s c hc1 hcm hs (fun x hx => hus x (List.mem_cons_of_mem u hx))]
      simp [hzero]
    · have hlt : c < cfg.maxRequestsPerMinute := Nat.lt_of_not_le hsat
      have hset : (s.set identifier
          { count := c + 1, resetAt := R }) identifier =
          some { count := c + 1, resetAt := R } := by
        simp [RLState.set]
      simp only [runChecks, check, hs, if_neg hultR, if_neg hsat]
      rw [ih (s.set identifier { count := c + 1, resetAt := R }) (c + 1)
        (by omega) (by omega) hset
        (fun x hx => hus x (List.mem_cons_of_mem u hx))]
      have hsub : cfg.maxRequestsPerMinute - c =
          (cfg.maxRequestsPerMinute - (c + 1)) + 1 := by omega
      rw [hsub]
      simp only [List.length_cons, List.drop_succ_cons]
      rw [min_add_add_right]
      simp [List.replicate_succ]

/-- C8: starting from a state with no entry for a key, the first check
at time `t` opens a 60-second window; among checks all falling inside
that window, exactly the first `maxRequestsPerMinute` are allowed and
every later one is denied with `retryAfter` equal to the whole-second
ceiling of the remaining window time; any such ceiling is `> 0` and
`≤ 60`; and a check after the window has elapsed is allowed again with
a fresh 60-second window. -/
theorem C8_rate_limit_window (cfg : RateLimitConfig) (identifier : String)
    (s0 : RLState) (t : Nat) (ts : List Nat)
    (hfresh : s0 identifier = none)
    (hmax : 1 ≤ cfg.maxRequestsPerMinute)
    (hts : ∀ u ∈ ts, t ≤ u ∧ u < t + 60000) :
    (runChecks cfg s0 identifier (t :: ts)).1 =
      List.replicate (min (ts.length + 1) cfg.maxRequestsPerMinute)
        { allowed := true, retryAfter := none } ++
      ((t :: ts).drop cfg.maxRequestsPerMinute).map
        (fun u => { allowed := false
                    retryAfter := some (ceilSeconds (t + 60000 - u)) }) ∧
    (∀ u, t ≤ u → u < t + 60000 →
      1 ≤ ceilSeconds (t + 60000 - u) ∧ ceilSeconds (t + 60000 - u) ≤ 60) ∧
    (∀ (s : RLState) (e : RateLimitEntry) (t2 : Nat),
      s identifier = some e → e.resetAt ≤ t2 →
      check cfg s t2 identifier =
        ({ allowed := true, retryAfter := none },
          s.set identifier { count := 1, resetAt := t2 + 60000 })) := by
  refine ⟨?_, ?_, ?_⟩
  · have hset : (s0.set identifier
        { count := 1, resetAt := t + 60000 }) identifier =
        some { count := 1, resetAt := t + 60000 } := by
      simp [RLState.set]
    simp only [runChecks, check, hfresh]
    rw [runChecks_saturating cfg identifier (t + 60000) ts _ 1 le_rfl hmax
      hset (fun u hu => (hts u hu).2)]
    have hdrop : (t :: ts).drop cfg.maxRequestsPerMinute =
        ts.drop (cfg.maxRequestsPerMinute - 1) := by
      rw [show cfg.maxRequestsPerMinute =
        (cfg.maxRequestsPerMinute - 1) + 1 from by omega]
      exact List.drop_succ_cons
    have hmin : min (ts.length + 1) cfg.maxRequestsPerMinute =
        min ts.length (cfg.maxRequestsPerMinute - 1) + 1 := by omega
    rw [hdrop, hmin, List.replicate_succ]
    rfl
  · intro u hu1 hu2
    constructor
    · rw [ceilSeconds, Nat.one_le_div_iff (by norm_num)]
      omega
    · rw [ceilSeconds]
      have : t + 60000 - u + 999 < 61 * 1000 := by omega
      exact Nat.lt_succ_iff.mp ((Nat.div_lt_iff_lt_mul (by norm_num)).mpr this)
  · intro s e t2 hs he
    simp [check, hs, if_pos he]

/-- Witness for C8: with a 2-per-minute limit and a fresh key, three
in-window checks yield allowed, allowed, denied-with-60s-retry. -/
theorem C8_rate_limit_window_witness :
    (runChecks { maxRequestsPerMinute := 2 } RLState.empty "k"
        [100, 200, 300]).1 =
      [{ allowed := true, retryAfter := none },
       { allowed := true, retryAfter := none },
       { allowed := false, retryAfter := some 60 }] := by
  have h := (C8_rate_limit_window { maxRequestsPerMinute := 2 } "k"
    RLState.empty 100 [200, 300] rfl (by norm_num) (by decide)).1
  rw [h]
  rfl

/-- `cleanup` at time `t` leaves the entry map equivalent (at `t`) to
the original: it removes exactly the expired entries. -/
theorem cleanup_stateEquivAt (s : RLState) (t : Nat) :
    stateEquivAt t (cleanup s t) s := by
  intro k
  cases hc : s k with
  | none => left; simp [cleanup, hc]
  | some e =>
    by_cases he : e.resetAt ≤ t
    · right; left
      exact ⟨by simp [cleanup, hc, if_pos he], e, rfl, he⟩
    · left; simp [cleanup, hc, if_neg he]

/-- A `check` at a time `≥ t` returns the same result on states that
are equivalent at `t`, and keeps them equivalent at `t` (an absent
entry and an entry already expired by `t` both take the fresh-window
path). -/
theorem check_respects_equiv (cfg : RateLimitConfig) (t t2 : Nat)
    (key : String) (s1 s2 : RLState) (h : stateEquivAt t s1 s2)
    (ht : t ≤ t2) :
    (check cfg s1 t2 key).1 = (check cfg s2 t2 key).1 ∧
    stateEquivAt t (check cfg s1 t2 key).2 (check cfg s2 t2 key).2 := by
  have hset : ∀ e, stateEquivAt t (s1.set key e) (s2.set key e) := by
    intro e k
    by_cases hk : k = key
    · subst hk; left; simp [RLState.set]
    · simp only [RLState.set, if_neg hk]; exact h k
  rcases h key with heq | ⟨h1n, en, h2s, hexp⟩ | ⟨h2n, en, h1s, hexp⟩
  · cases hc1 : s1 key with
    | none =>
      have hc2 : s2 key = none := by rw [← heq, hc1]
      simp only [check, hc1, hc2]
      exact ⟨by simp, hset _⟩
    | some entry =>
      have hc2 : s2 key = some entry := by rw [← heq, hc1]
      simp only [check, hc1, hc2]
      by_cases hr : entry.resetAt ≤ t2
      · simp only [if_pos hr]; exact ⟨by simp, hset _⟩
      · simp only [if_neg hr]
        by_cases hm : cfg.maxRequestsPerMinute ≤ entry.count
        · simp only [if_pos hm]; exact ⟨by simp, h⟩
        · simp only [if_neg hm]; exact ⟨by simp, hset _⟩
  · have hr2 : en.resetAt ≤ t2 := le_trans hexp ht
    simp only [check, h1n, h2s, if_pos hr2]
    exact ⟨by simp, hset _⟩
  · have hr1 : en.resetAt ≤ t2 := le_trans hexp ht
    simp only [check, h2n, h1s, if_pos hr1]
    exact ⟨by simp, hset _⟩

/-- A whole sequence of checks at times `≥ t` returns the same results
on states equivalent at `t`. -/
theorem runKeyedChecks_respects_equiv (cfg : RateLimitConfig) (t : Nat) :
    ∀ (cs : List (String × Nat)) (s1 s2 : RLState),
      stateEquivAt t s1 s2 → (∀ c ∈ cs, t ≤ c.2) →
      (runKeyedChecks cfg s1 cs).1 = (runKeyedChecks cfg s2 cs).1 := by
  intro cs
  induction cs with
  | nil => intro s1 s2 _ _; rfl
  | cons c cs ih =>
    intro s1 s2 h hts
    have hc := check_respects_equiv cfg t c.2 c.1 s1 s2 h
      (hts c (List.mem_cons_self c cs))
    simp only [runKeyedChecks]
    rw [hc.1, ih ((check cfg s1 c.2 c.1).2) ((check cfg s2 c.2 c.1).2) hc.2
      (fun x hx => hts x (List.mem_cons_of_mem c hx))]

/-- C10: inserting a `cleanup()` call between two checks never changes
the allowed/denied outcome or the `retryAfter` of any later check:
`cleanup` removes only entries whose window has already expired, and
`check` treats a missing entry exactly like an expired one (count reset
to 1, a fresh 60-second window, allowed).  The hypothesis is that later
checks happen no earlier than the cleanup (`Date.now()` is
monotone). -/
theorem C10_cleanup_transparent (cfg : RateLimitConfig) (s : RLState)
    (t : Nat) (cs : List (String × Nat)) (hts : ∀ c ∈ cs, t ≤ c.2) :
    (runKeyedChecks cfg (cleanup s t) cs).1 =
      (runKeyedChecks cfg s cs).1 :=
  runKeyedChecks_respects_equiv cfg t cs (cleanup s t) s
    (cleanup_stateEquivAt s t) hts

/-- Witness for C10: a cleanup at time 150 (which removes the expired
entry for "k" but keeps the live entry for "l") does not change the
results of three later checks. -/
theorem C10_cleanup_transparent_witness :
    (runKeyedChecks { maxRequestsPerMinute := 2 } (cleanup rlW 150)
        [("k", 150), ("l", 200), ("k", 160)]).1 =
      (runKeyedChecks { maxRequestsPerMinute := 2 } rlW
        [("k", 150), ("l", 200), ("k", 160)]).1 :=
  C10_cleanup_transparent { maxRequestsPerMinute := 2 } rlW 150
    [("k", 150), ("l", 200), ("k", 160)] (by decide)

/-- `registerQueue` never changes directory contents. -/
theorem registerQueue_store (T : Type) (qm : QueueManager T) (name : String) :
    (registerQueue qm name).store = qm.store := by
  unfold registerQueue
  split <;> rfl

/-- `registerQueue` keeps the depth counter of `name` in sync with the
pending count (establishing it when the queue was unregistered). -/
theorem registerQueue_depth_sync (T : Type) (qm : QueueManager T)
    (name : String) (h : qm.depth name = (qm.store name).pending.length) :
    (registerQueue qm name).depth name =
      ((registerQueue qm name).store name).pending.length := by
  unfold registerQueue
  split
  · exact h
  · simp [QueueManager.setDepth, countPendingItems]

/-- Filtering on a fresh id is the identity. -/
theorem filter_id_ne_of_fresh (T : Type) (l : List (QueuedItem T))
    (i : String) (h : i ∉ dirIds l) :
    l.filter (fun o => o.id ≠ i) = l := by
  rw [List.filter_eq_self]
  intro x hx
  simp only [decide_eq_true_eq]
  intro hxi
  exact h (by simp only [dirIds, List.mem_map]; exact ⟨x, hx, hxi⟩)

/-- Removing one present id from a duplicate-free directory shortens it
by exactly one. -/
theorem filter_id_ne_length (T : Type) :
    ∀ (l : List (QueuedItem T)) (m : QueuedItem T),
      (dirIds l).Nodup → m ∈ l →
      (l.filter (fun o => o.id ≠ m.id)).length + 1 = l.length := by
  intro l
  induction l with
  | nil => intro m _ hm; cases hm
  | cons a l ih =>
    intro m hnd hm
    have hnd' : (dirIds l).Nodup := (List.nodup_cons.mp hnd).2
    by_cases hida : a.id = m.id
    · have hfresh : m.id ∉ dirIds l := hida ▸ (List.nodup_cons.mp hnd).1
      have heq : l.filter (fun o => o.id ≠ m.id) = l :=
        filter_id_ne_of_fresh T l m.id hfresh
      rw [List.filter_cons, if_neg (by simp [hida]), heq]
      simp
    · have hml : m ∈ l := by
        rcases List.mem_cons.mp hm with h1 | h1
        · exact absurd (h1 ▸ rfl) hida
        · exact h1
      simp only [List.filter_cons, decide_eq_true_eq]
      rw [if_pos hida]
      simp only [List.length_cons]
      rw [← ih m hnd' hml]

/-- The fold inside `pickMin` returns the start element or a list
element. -/
theorem pickMinFold_mem (T : Type) :
    ∀ (xs : List (QueuedItem T)) (acc : QueuedItem T),
      xs.foldl (fun acc y =>
        if jsLT (fileName y.id) (fileName acc.id) then y else acc) acc ∈
        acc :: xs := by
  intro xs
  induction xs with
  | nil => intro acc; simp
  | cons y ys ih =>
    intro acc
    simp only [List.foldl_cons]
    have h := ih (if jsLT (fileName y.id) (fileName acc.id) then y else acc)
    rcases List.mem_cons.mp h with h1 | h1
    · rw [h1]
      by_cases hc : jsLT (fileName y.id) (fileName acc.id)
      · rw [if_pos hc]; simp
      · rw [if_neg hc]; simp
    · simp [List.mem_cons.mpr (Or.inr (List.mem_cons.mpr (Or.inr h1)))]

/-- `pickMin` returns an element of the directory. -/
theorem pickMin_mem (T : Type) (l : List (QueuedItem T)) (m : QueuedItem T)
    (h : pickMin l = some m) : m ∈ l := by
  cases l with
  | nil => cases h
  | cons x xs =>
    have := pickMinFold_mem T xs x
    simp only [pickMin, Option.some.injEq] at h
    rw [h] at this
    exact this

/-- A dequeue keeps the depth counter in sync, shortens a duplicate-free
nonempty pending directory by one, and keeps it duplicate-free. -/
theorem dequeue_state (T : Type) (qm : QueueManager T) (name : String)
    (hI : qm.depth name = (qm.store name).pending.length)
    (hnd : (dirIds (qm.store name).pending).Nodup) :
    (dequeue qm name).2.depth name =
      ((dequeue qm name).2.store name).pending.length ∧
    ((dequeue qm name).2.store name).pending.length =
      (qm.store name).pending.length - 1 ∧
    (dirIds ((dequeue qm name).2.store name).pending).Nodup ∨
    ((qm.store name).pending = [] ∧ (dequeue qm name).2.store name = qm.store name ∧
      (dequeue qm name).2.depth name = qm.depth name) := by
  have hrs := registerQueue_store T qm name
  have hrd := registerQueue_depth_sync T qm name hI
  have hrd2 : (registerQueue qm name).depth name =
      (qm.store name).pending.length := by rw [hrd, hrs]
  cases hpick : pickMin ((registerQueue qm name).store name).pending with
  | none =>
    right
    have hnil : ((registerQueue qm name).store name).pending = [] := by
      cases hp : ((registerQueue qm name).store name).pending with
      | nil => rfl
      | cons x xs => rw [hp] at hpick; cases hpick
    have hd : (dequeue qm name).2 = registerQueue qm name := by
      simp [dequeue, hpick]
    rw [hrs] at hnil
    refine ⟨hnil, by rw [hd, hrs], ?_⟩
    rw [hd, hrd2, hnil, hI, hnil]
  | some m =>
    left
    have hpick2 : pickMin (qm.store name).pending = some m := by
      rw [hrs] at hpick; exact hpick
    have hmem : m ∈ (qm.store name).pending :=
      pickMin_mem T _ m hpick2
    have hlen := filter_id_ne_length T (qm.store name).pending m hnd hmem
    have hsub : (dirIds ((qm.store name).pending.filter
        (fun o => o.id ≠ m.id))).Sublist (dirIds (qm.store name).pending) :=
      List.Sublist.map _ (List.filter_sublist _)
    refine ⟨?_, ?_, ?_⟩ <;>
      simp only [dequeue, hpick, hpick2, QueueManager.setDepth,
        QueueManager.setStore, hrs, eq_self_iff_true, if_true]
    · omega
    · omega
    · exact hsub.nodup hnd

/-- One enqueue with a fresh id appends the new item to the pending
directory and keeps the depth counter in sync. -/
theorem enqueue_state (T : Type) (qm : QueueManager T) (name : String)
    (tId : Nat) (suffix : String) (tItem : Nat) (data : T)
    (hI : qm.depth name = (qm.store name).pending.length)
    (hfresh : genId tId suffix ∉ dirIds (qm.store name).pending) :
    ((enqueue qm name tId suffix tItem data).2.store name).pending =
      (qm.store name).pending ++
        [{ id := genId tId suffix, data := data, timestamp := tItem }] ∧
    (enqueue qm name tId suffix tItem data).2.depth name =
      ((enqueue qm name tId suffix tItem data).2.store name).pending.length := by
  have hrs := registerQueue_store T qm name
  have hrd2 : (registerQueue qm name).depth name =
      (qm.store name).pending.length := by
    rw [registerQueue_depth_sync T qm name hI, hrs]
  have hfe : (qm.store name).pending.filter
      (fun o => o.id ≠ genId tId suffix) = (qm.store name).pending :=
    filter_id_ne_of_fresh T _ _ hfresh
  constructor
  · simp only [enqueue, QueueManager.setStore, QueueManager.setDepth, hrs,
      eq_self_iff_true, if_true, writeItem]
    rw [hfe]
  · simp only [enqueue, QueueManager.setStore, QueueManager.setDepth, hrs,
      eq_self_iff_true, if_true, writeItem]
    rw [hfe, hrd2]
    simp

/-- A batch of enqueues with pairwise-distinct fresh ids appends the
corresponding items in call order and keeps the depth counter in
sync. -/
theorem runEnqueues_state (T : Type) (name : String) :
    ∀ (es : List (EnqueueReq T)) (qm : QueueManager T),
      qm.depth name = (qm.store name).pending.length →
      (∀ e ∈ es, e.id ∉ dirIds (qm.store name).pending) →
      (es.map EnqueueReq.id).Nodup →
      ((runEnqueues qm name es).store name).pending =
        (qm.store name).pending ++ es.map EnqueueReq.item ∧
      (runEnqueues qm name es).depth name =
        ((runEnqueues qm name es).store name).pending.length := by
  intro es
  induction es with
  | nil =>
    intro qm hI _ _
    exact ⟨by simp [runEnqueues], by simp [runEnqueues, hI]⟩
  | cons e es ih =>
    intro qm hI hfresh hnd
    have h1 := enqueue_state T qm name e.tId e.suffix e.tItem e.data hI
      (hfresh e (List.mem_cons_self e es))
    have hI1 : (enqueue qm name e.tId e.suffix e.tItem e.data).2.depth name =
        ((enqueue qm name e.tId e.suffix e.tItem e.data).2.store
          name).pending.length := h1.2
    have hfresh1 : ∀ x ∈ es, x.id ∉ dirIds
        ((enqueue qm name e.tId e.suffix e.tItem e.data).2.store
          name).pending := by
      intro x hx
      rw [h1.1]
      simp only [dirIds, List.map_append, List.mem_append, not_or]
      refine ⟨fun hmem => hfresh x (List.mem_cons_of_mem e hx) hmem, ?_⟩
      simp only [List.map_cons, List.map_nil, List.mem_singleton]
      intro heq
      have : e.id ∈ es.map EnqueueReq.id :=
        List.mem_map.mpr ⟨x, hx, heq⟩
      exact (List.nodup_cons.mp hnd).1 this
    obtain ⟨hp, hd⟩ := ih (enqueue qm name e.tId e.suffix e.tItem e.data).2
      hI1 hfresh1 (List.nodup_cons.mp hnd).2
    have hrun : runEnqueues qm name (e :: es) =
        runEnqueues (enqueue qm name e.tId e.suffix e.tItem e.data).2 name
          es := rfl
    constructor
    · rw [hrun, hp, h1.1]
      simp [List.append_assoc, EnqueueReq.item, EnqueueReq.id]
    · rw [hrun]
      exact hd

/-- A run of `M` dequeues on a duplicate-free queue of at least `M`
pending items leaves the depth counter at the old pending count minus
`M`. -/
theorem runDequeues_state (T : Type) (name : String) :
    ∀ (M : Nat) (qm : QueueManager T),
      qm.depth name = (qm.store name).pending.length →
      (dirIds (qm.store name).pending).Nodup →
      M ≤ (qm.store name).pending.length →
      (runDequeues qm name M).depth name =
        (qm.store name).pending.length - M := by
  intro M
  induction M with
  | zero => intro qm hI _ _; simpa [runDequeues] using hI
  | succ M ih =>
    intro qm hI hnd hM
    rcases dequeue_state T qm name hI hnd with ⟨h1, h2, h3⟩ | ⟨hnil, _, _⟩
    · have hrec := ih (dequeue qm name).2 h1 h3 (by omega)
      have hrun : runDequeues qm name (M + 1) =
          runDequeues (dequeue qm name).2 name M := rfl
      rw [hrun, hrec, h2]
      omega
    · rw [hnil] at hM
      simp at hM

/-- C1: on an otherwise-untouched queue, after `N` enqueue calls (with
the pairwise-distinct ids the random suffixes guarantee) and `M ≤ N`
dequeue calls, the tracked depth reported by `getQueueDepth` equals
`N - M`. -/
theorem C1_depth_after_enqueues_and_dequeues (T : Type) (name : String)
    (es : List (EnqueueReq T)) (M : Nat) (hM : M ≤ es.length)
    (hids : (es.map EnqueueReq.id).Nodup) :
    getQueueDepth
      (runDequeues (runEnqueues (QueueManager.init T) name es) name M)
      name = es.length - M := by
  obtain ⟨hp, hd⟩ := runEnqueues_state T name es (QueueManager.init T) rfl
    (by intro e _he; simp [QueueManager.init, QueueState.empty, dirIds])
    hids
  have hlen : ((runEnqueues (QueueManager.init T) name es).store
      name).pending.length = es.length := by
    rw [hp]
    simp [QueueManager.init, QueueState.empty]
  have hnd2 : (dirIds ((runEnqueues (QueueManager.init T) name es).store
      name).pending).Nodup := by
    rw [hp]
    simpa [QueueManager.init, QueueState.empty, dirIds, List.map_map,
      Function.comp, EnqueueReq.item, EnqueueReq.id] using hids
  have hrun := runDequeues_state T name M
    (runEnqueues (QueueManager.init T) name es) hd hnd2
    (by rw [hlen]; exact hM)
  rw [getQueueDepth, hrun, hlen]

/-- Witness for C1: three enqueues and two dequeues on a fresh queue
leave the tracked depth at 1. -/
theorem C1_depth_after_enqueues_and_dequeues_witness :
    getQueueDepth
      (runDequeues (runEnqueues (QueueManager.init Nat) "incoming" esW)
        "incoming" 2) "incoming" = 1 :=
  C1_depth_after_enqueues_and_dequeues Nat "incoming" esW 2 (by decide)
    (by decide)

/-- C2 (divergence, concrete): dequeueing a response whose output
adapter's `send` raises makes the error escape the outgoing loop
iteration uncaught (`raised = some "boom"`): the item is left in the
processing partition (never completed) and its id is left in
`activeProcessingJobs`, and no further iteration is scheduled.  By
contrast, the incoming loop catches its agent's failure: on the same
shape of input with a raising `process`, nothing escapes
(`raised = none`) and the item is completed into done. -/
theorem C2_outgoing_send_failure_uncaught :
    (outgoingStep stOutW outputsBoom).raised = some "boom" ∧
    ((outgoingStep stOutW outputsBoom).state.outgoing.store
        "outgoing").processing =
      [{ id := "1_r", data := respW, timestamp := 1 }] ∧
    ((outgoingStep stOutW outputsBoom).state.outgoing.store
        "outgoing").done = [] ∧
    (outgoingStep stOutW outputsBoom).state.active = ["1_r"] ∧
    (incomingStep stInW agentsBoom "opencode" 9 9 "x" 9).raised = none ∧
    ((incomingStep stInW agentsBoom "opencode" 9 9 "x" 9).state.incoming.store
        "incoming").done = [{ id := "1_m", data := msgW, timestamp := 1 }] ∧
    (incomingStep stInW agentsBoom "opencode" 9 9 "x" 9).state.active = [] := by
  decide

/-- The fuel-based decimal printer computes the reversed
`Nat.digits`. -/
theorem decDigitsAux_eq_digits_reverse :
    ∀ (fuel n : Nat), n ≤ fuel →
      decDigitsAux fuel n = (Nat.digits 10 n).reverse := by
  intro fuel
  induction fuel with
  | zero =>
    intro n hn
    have : n = 0 := Nat.le_zero.mp hn
    subst this
    simp [decDigitsAux]
  | succ fuel ih =>
    intro n hn
    by_cases h0 : n = 0
    · subst h0; simp [decDigitsAux]
    · have hpos : 0 < n := Nat.pos_of_ne_zero h0
      have hdiv : n / 10 ≤ fuel := by
        have : n / 10 < n := Nat.div_lt_self hpos (by norm_num)
        omega
      rw [show decDigitsAux (fuel + 1) n =
        decDigitsAux fuel (n / 10) ++ [n % 10] from by
          simp [decDigitsAux, h0]]
      rw [ih (n / 10) hdiv, Nat.digits_def' (by norm_num : (1:Nat) < 10) hpos]
      simp

/-- `decDigits` is the reversed (most-significant-first) digit list. -/
theorem decDigits_eq_digits_reverse (n : Nat) :
    decDigits n = (Nat.digits 10 n).reverse :=
  decDigitsAux_eq_digits_reverse n n le_rfl

/-- `digitCh` is strictly monotone on decimal digits (checked on the
finite digit range). -/
theorem digitCh_mono_fin : ∀ a b : Fin 10, a.val < b.val →
    digitCh a.val < digitCh b.val := by decide

/-- `digitCh` is strictly monotone on decimal digits. -/
theorem digitCh_mono (d1 d2 : Nat) (h1 : d1 < 10) (h2 : d2 < 10)
    (h : d1 < d2) : digitCh d1 < digitCh d2 :=
  digitCh_mono_fin ⟨d1, h1⟩ ⟨d2, h2⟩ h

/-- The numeric value of a most-significant-first digit list with a
head digit prepended. -/
theorem ofDigits_reverse_cons (d : Nat) (M : List Nat) :
    Nat.ofDigits 10 (d :: M).reverse =
      Nat.ofDigits 10 M.reverse + 10 ^ M.length * d := by
  rw [List.reverse_cons, Nat.ofDigits_append, Nat.ofDigits_singleton,
    List.length_reverse]

/-- Comparing equal-length most-significant-first digit lists by value
is lexicographic comparison. -/
theorem msb_lex : ∀ (L1 L2 : List Nat), L1.length = L2.length →
    (∀ d ∈ L1, d < 10) → (∀ d ∈ L2, d < 10) →
    Nat.ofDigits 10 L1.reverse < Nat.ofDigits 10 L2.reverse →
    List.Lex (· < ·) L1 L2 := by
  intro L1
  induction L1 with
  | nil =>
    intro L2 hlen _ _ hv
    cases L2 with
    | nil => simp at hv
    | cons b M2 => cases hlen
  | cons d1 M1 ih =>
    intro L2 hlen hb1 hb2 hv
    cases L2 with
    | nil => cases hlen
    | cons d2 M2 =>
      have hlen' : M1.length = M2.length := by
        simpa using hlen
      have hw1 : Nat.ofDigits 10 M1.reverse < 10 ^ M1.length := by
        have := Nat.ofDigits_lt_base_pow_length
          (by norm_num : (1:Nat) < 10)
          (fun x hx => hb1 x (List.mem_cons_of_mem d1
            (List.mem_reverse.mp hx)))
        simpa [List.length_reverse] using this
      have hw2 : Nat.ofDigits 10 M2.reverse < 10 ^ M2.length := by
        have := Nat.ofDigits_lt_base_pow_length
          (by norm_num : (1:Nat) < 10)
          (fun x hx => hb2 x (List.mem_cons_of_mem d2
            (List.mem_reverse.mp hx)))
        simpa [List.length_reverse] using this
      rw [ofDigits_reverse_cons, ofDigits_reverse_cons] at hv
      rcases Nat.lt_trichotomy d1 d2 with hd | hd | hd
      · exact List.Lex.rel hd
      · subst hd
        refine List.Lex.cons (ih M2 hlen'
          (fun x hx => hb1 x (List.mem_cons_of_mem d1 hx))
          (fun x hx => hb2 x (List.mem_cons_of_mem d1 hx)) ?_)
        rw [hlen'] at hv
        omega
      · exfalso
        have hchain : Nat.ofDigits 10 M2.reverse + 10 ^ M2.length * d2 <
            10 ^ M2.length * (d2 + 1) := by
          rw [Nat.mul_add, Nat.mul_one]
          omega
        have hle : 10 ^ M2.length * (d2 + 1) ≤ 10 ^ M2.length * d1 :=
          Nat.mul_le_mul_left _ hd
        have : Nat.ofDigits 10 M2.reverse + 10 ^ M2.length * d2 <
            Nat.ofDigits 10 M1.reverse + 10 ^ M1.length * d1 := by
          calc Nat.ofDigits 10 M2.reverse + 10 ^ M2.length * d2
              < 10 ^ M2.length * (d2 + 1) := hchain
            _ ≤ 10 ^ M2.length * d1 := hle
            _ = 10 ^ M1.length * d1 := by rw [hlen']
            _ ≤ Nat.ofDigits 10 M1.reverse + 10 ^ M1.length * d1 :=
                Nat.le_add_left _ _
        omega

/-- Mapping the strictly monotone digit-to-character embedding keeps
lexicographic order. -/
theorem lex_map_digitCh : ∀ (L1 L2 : List Nat), (∀ d ∈ L1, d < 10) →
    (∀ d ∈ L2, d < 10) → List.Lex (· < ·) L1 L2 →
    List.Lex (· < ·) (L1.map digitCh) (L2.map digitCh) := by
  intro L1
  induction L1 with
  | nil =>
    intro L2 _ _ h
    cases h with
    | nil => exact List.Lex.nil
  | cons a l1 ih =>
    intro L2 h1 h2 h
    cases h with
    | rel hab =>
      simp only [List.map_cons]
      exact List.Lex.rel (digitCh_mono _ _
        (h1 a (List.mem_cons_self a l1))
        (h2 _ (List.mem_cons_self _ _)) hab)
    | cons htail =>
      simp only [List.map_cons]
      exact List.Lex.cons (ih _
        (fun d hd => h1 d (List.mem_cons_of_mem a hd))
        (fun d hd => h2 d (List.mem_cons_of_mem a hd)) htail)

/-- A strict lexicographic comparison between equal-length lists is
decided before either list ends, so appending arbitrary tails keeps
it. -/
theorem lex_append_of_eq_length (u v : List Char) :
    ∀ (x y : List Char), x.length = y.length →
      List.Lex (· < ·) x y → List.Lex (· < ·) (x ++ u) (y ++ v) := by
  intro x
  induction x with
  | nil =>
    intro y hlen h
    cases y with
    | nil => exact absurd h (List.Lex.not_nil_right _ _)
    | cons b l => simp at hlen
  | cons a l1 ih =>
    intro y hlen h
    cases h with
    | rel hr =>
      simp only [List.cons_append]
      exact List.Lex.rel hr
    | cons htail =>
      simp only [List.cons_append]
      exact List.Lex.cons (ih _ (by simpa using hlen) htail)

/-- `decChars` through `Nat.digits`. -/
theorem decChars_eq (n : Nat) :
    decChars n = ((Nat.digits 10 n).reverse).map digitCh := by
  rw [decChars, decDigits_eq_digits_reverse]

/-- The character list of a generated id (for a positive timestamp):
the decimal characters, an underscore, then the suffix characters. -/
theorem genId_data (t : Nat) (h : 0 < t) (s : String) :
    (genId t s).data = decChars t ++ ('_' :: s.data) := by
  rw [genId, decString, if_neg (by omega : ¬ t = 0)]
  rw [String.data_append, String.data_append]
  rw [show (decChars t).asString.data = decChars t from
    List.toList_asString (decChars t)]
  show decChars t ++ ['_'] ++ s.data = _
  simp [List.append_assoc]

/-- The character list of a generated id's file name. -/
theorem genId_fileName_data (t : Nat) (h : 0 < t) (s : String) :
    (fileName (genId t s)).data =
      decChars t ++ ('_' :: (s.data ++ (".json" : String).data)) := by
  rw [fileName, String.data_append, genId_data t h s]
  simp [List.append_assoc]

/-- Two ids generated at increasing timestamps of equal decimal length
compare strictly in generation order, both as raw ids and as file
names, regardless of the random suffixes. -/
theorem genId_lt (t1 t2 : Nat) (s1 s2 : String)
    (h1 : 0 < t1) (h12 : t1 < t2)
    (hlen : (Nat.digits 10 t1).length = (Nat.digits 10 t2).length) :
    jsLT (genId t1 s1) (genId t2 s2) ∧
    jsLT (fileName (genId t1 s1)) (fileName (genId t2 s2)) := by
  have h2 : 0 < t2 := lt_trans h1 h12
  have hb1 : ∀ d ∈ (Nat.digits 10 t1).reverse, d < 10 := fun d hd =>
    Nat.digits_lt_base (by norm_num) (List.mem_reverse.mp hd)
  have hb2 : ∀ d ∈ (Nat.digits 10 t2).reverse, d < 10 := fun d hd =>
    Nat.digits_lt_base (by norm_num) (List.mem_reverse.mp hd)
  have hlex : List.Lex (· < ·) (Nat.digits 10 t1).reverse
      (Nat.digits 10 t2).reverse := by
    apply msb_lex _ _ (by simp [hlen]) hb1 hb2
    rw [List.reverse_reverse, List.reverse_reverse, Nat.ofDigits_digits,
      Nat.ofDigits_digits]
    exact h12
  have hlexC : List.Lex (· < ·) (decChars t1) (decChars t2) := by
    rw [decChars_eq, decChars_eq]
    exact lex_map_digitCh _ _ hb1 hb2 hlex
  have hlenC : (decChars t1).length = (decChars t2).length := by
    simp [decChars_eq, hlen]
  constructor
  · show List.Lex (· < ·) (genId t1 s1).data (genId t2 s2).data
    rw [genId_data t1 h1 s1, genId_data t2 h2 s2]
    exact lex_append_of_eq_length _ _ _ _ hlenC hlexC
  · show List.Lex (· < ·) (fileName (genId t1 s1)).data
      (fileName (genId t2 s2)).data
    rw [genId_fileName_data t1 h1 s1, genId_fileName_data t2 h2 s2]
    exact lex_append_of_eq_length _ _ _ _ hlenC hlexC

/-- `jsLT` is asymmetric (hence irreflexive). -/
theorem jsLT_asymm (a b : String) (h : jsLT a b) : ¬ jsLT b a := by
  intro h2
  have h1 : List.Lex (· < ·) a.data b.data := h
  have h3 : List.Lex (· < ·) b.data a.data := h2
  exact asymm h1 h3

/-- The fold inside `pickMin` keeps its start element when nothing in
the list beats it. -/
theorem pickMinFold_of_min (T : Type) :
    ∀ (xs : List (QueuedItem T)) (acc : QueuedItem T),
      (∀ y ∈ xs, ¬ jsLT (fileName y.id) (fileName acc.id)) →
      xs.foldl (fun acc y =>
        if jsLT (fileName y.id) (fileName acc.id) then y else acc) acc =
        acc := by
  intro xs
  induction xs with
  | nil => intro acc _; rfl
  | cons y ys ih =>
    intro acc h
    simp only [List.foldl_cons, if_neg (h y (List.mem_cons_self y ys))]
    exact ih acc (fun z hz => h z (List.mem_cons_of_mem y hz))

/-- When the head's file name strictly precedes every other item's,
`pickMin` returns the head. -/
theorem pickMin_cons_of_min (T : Type) (x : QueuedItem T)
    (xs : List (QueuedItem T))
    (h : ∀ y ∈ xs, jsLT (fileName x.id) (fileName y.id)) :
    pickMin (x :: xs) = some x := by
  simp only [pickMin]
  rw [pickMinFold_of_min T xs x (fun y hy => jsLT_asymm _ _ (h y hy))]

/-- Draining a queue whose pending partition is strictly sorted by file
name returns exactly the pending items in sorted order. -/
theorem drain_of_sorted (T : Type) (name : String) :
    ∀ (l : List (QueuedItem T)) (qm : QueueManager T),
      (qm.store name).pending = l →
      l.Pairwise (fun x y => jsLT (fileName x.id) (fileName y.id)) →
      drain qm name l.length = l := by
  intro l
  induction l with
  | nil =>
    intro qm _ _
    simp [drain]
  | cons x xs ih =>
    intro qm hp hpw
    obtain ⟨hhead, htail⟩ := List.pairwise_cons.mp hpw
    have hrs := registerQueue_store T qm name
    have hpick : pickMin ((registerQueue qm name).store name).pending =
        some x := by
      rw [hrs, hp]
      exact pickMin_cons_of_min T x xs hhead
    have hne : ∀ y ∈ xs, ¬ y.id = x.id := by
      intro y hy heq
      exact jsLT_asymm _ _ (heq ▸ hhead y hy) (heq ▸ hhead y hy)
    have hfil : (x :: xs).filter (fun o => o.id ≠ x.id) = xs := by
      have h2 : xs.filter (fun o => o.id ≠ x.id) = xs :=
        List.filter_eq_self.mpr (fun y hy => by simpa using hne y hy)
      rw [List.filter_cons, if_neg (by simp), h2]
    simp only [List.length_cons, drain, dequeue, hpick]
    refine congrArg (List.cons x) (ih _ ?_ htail)
    simp only [QueueManager.setDepth, QueueManager.setStore,
      eq_self_iff_true, if_true, hrs]
    rw [hp]
    exact hfil

/-- The decimal-length of a number through the fuel-based printer. -/
theorem digits_len_eq_decDigits_len (n : Nat) :
    (Nat.digits 10 n).length = (decDigits n).length := by
  rw [decDigits_eq_digits_reverse, List.length_reverse]

/-- C3 (amended): under the documented caveat (no same-millisecond
ties, i.e. strictly increasing enqueue timestamps) and the additional
proviso the counterexample forces — all timestamps have decimal
representations of equal length (true for every real clock time between
2001-09-09 and 2286-11-20) — draining a freshly created queue returns
exactly the enqueued items in enqueue order, and in particular
successive dequeues return ids in non-decreasing (here: strictly
increasing) lexicographic order. -/
theorem C3_fifo_dequeue_order (T : Type) (name : String)
    (es : List (EnqueueReq T))
    (hpos : ∀ e ∈ es, 0 < e.tId)
    (hmono : es.Pairwise (fun a b => a.tId < b.tId))
    (hdlen : ∀ a ∈ es, ∀ b ∈ es,
      (Nat.digits 10 a.tId).length = (Nat.digits 10 b.tId).length) :
    drain (runEnqueues (QueueManager.init T) name es) name es.length =
      es.map EnqueueReq.item ∧
    ((drain (runEnqueues (QueueManager.init T) name es) name
        es.length).map (fun it => it.id)).Pairwise jsLE := by
  have hpwF : es.Pairwise (fun a b =>
      jsLT (fileName a.id) (fileName b.id) ∧ jsLT a.id b.id) := by
    refine hmono.imp_of_mem ?_
    intro a b ha hb hab
    have h := genId_lt a.tId b.tId a.suffix b.suffix (hpos a ha) hab
      (hdlen a ha b hb)
    exact ⟨h.2, h.1⟩
  have hids : (es.map EnqueueReq.id).Nodup := by
    refine List.pairwise_map.mpr (hpwF.imp ?_)
    intro a b h heq
    exact jsLT_asymm _ _ (heq ▸ h.2) (heq ▸ h.2)
  obtain ⟨hp, _hd⟩ := runEnqueues_state T name es (QueueManager.init T) rfl
    (by intro e _he; simp [QueueManager.init, QueueState.empty, dirIds])
    hids
  have hp2 : ((runEnqueues (QueueManager.init T) name es).store
      name).pending = es.map EnqueueReq.item := by
    rw [hp]
    simp [QueueManager.init, QueueState.empty]
  have hpwItems : (es.map EnqueueReq.item).Pairwise
      (fun x y => jsLT (fileName x.id) (fileName y.id)) :=
    List.pairwise_map.mpr (hpwF.imp (fun h => h.1))
  have hdrain := drain_of_sorted T name (es.map EnqueueReq.item)
    (runEnqueues (QueueManager.init T) name es) hp2 hpwItems
  rw [List.length_map] at hdrain
  refine ⟨hdrain, ?_⟩
  rw [hdrain, List.map_map]
  exact List.pairwise_map.mpr (hpwF.imp (fun h => Or.inl h.2))

/-- Witness for C3's amended theorem: three enqueues with increasing
13-digit timestamps drain in enqueue order. -/
theorem C3_fifo_dequeue_order_witness :
    drain (runEnqueues (QueueManager.init Nat) "incoming" esW) "incoming"
        esW.length = esW.map EnqueueReq.item :=
  (C3_fifo_dequeue_order Nat "incoming" esW (by decide) (by decide)
    (by
      intro a ha b hb
      rw [digits_len_eq_decDigits_len, digits_len_eq_decDigits_len]
      have h13 : ∀ x ∈ esW, (decDigits x.tId).length = 13 := by decide
      rw [h13 a ha, h13 b hb])).1

/-- C3 (counterexample): two enqueues whose timestamps differ by one
millisecond (not a same-millisecond tie) but straddle the decimal
boundary 10^12 dequeue in reverse enqueue order, because the
lexicographic order of the generated ids inverts across a digit-length
change: lexicographic sort order does not equal enqueue order there. -/
theorem C3_boundary_counterexample :
    esBoundary.map (fun e => e.tId) = [999999999999, 1000000000000] ∧
    999999999999 < 1000000000000 ∧
    (drain qmBoundary "incoming" 2).map (fun it => it.data) = [2, 1] ∧
    (drain qmBoundary "incoming" 2).map (fun it => it.id) =
      ["1000000000000_bbbbbbbbb", "999999999999_aaaaaaaaa"] ∧
    jsLT "1000000000000_bbbbbbbbb" "999999999999_aaaaaaaaa" := by
  decide

end Lobster
